import Mathlib

set_option maxHeartbeats 1000000

namespace SyntheticReviews

/-! Shallow embedding of `src/synthetic_reviews/quality.py` and the
rejection-rate computation of `src/synthetic_reviews/cli.py`.
Python floats are modelled by `ℚ`: every arithmetic operation the code
performs on the quantities the claims mention is an exact division,
sum or comparison of small rationals. -/

/-- Word characters matched by the regex `\w+` in `quality.py`:
alphanumeric or underscore (ASCII reading of the word class). -/
def isWordChar (c : Char) : Bool := c.isAlphanum || c = '_'

/-- Embedding of `tokenize`: the maximal runs of word characters of the
text, each lowercased. -/
def tokenize (text : String) : List String :=
  ((text.data.splitOnP (fun c => !isWordChar c)).filter (fun w => w ≠ [])).map
    (fun w => String.mk (w.map Char.toLower))

/-- Embedding of `jaccard`: 0 when both sets are empty, otherwise
intersection over union (with the code's redundant zero-union guard). -/
def jaccard (a b : Finset String) : ℚ :=
  if a = ∅ ∧ b = ∅ then 0
  else if (a ∪ b).card = 0 then 0
  else ((a ∩ b).card : ℚ) / ((a ∪ b).card : ℚ)

/-- `max(jaccard(token_set, prev) for prev in seen)` over a nonempty list,
and the code's explicit `0.0` for the empty corpus. -/
def maxJaccard (ts : Finset String) : List (Finset String) → ℚ
  | [] => 0
  | p :: ps => ps.foldl (fun acc q => max acc (jaccard ts q)) (jaccard ts p)

/-- The default `domain_keywords` set installed when the caller passes none. -/
def defaultDomainKeywords : Finset String :=
  (["api", "endpoint", "request", "response", "debug", "debugging", "auth",
    "token", "rest", "http", "headers", "payload", "json", "postman",
    "insomnia", "hoppscotch", "ci", "pipeline", "test", "testing"]).toFinset

/-- Positive lexicon of `_compute_sentiment_score`. -/
def positive_words : Finset String :=
  (["great", "excellent", "good", "love", "best", "perfect", "amazing",
    "easy", "helpful", "fast", "reliable", "powerful", "smooth",
    "efficient"]).toFinset

/-- Negative lexicon of `_compute_sentiment_score`. -/
def negative_words : Finset String :=
  (["bad", "poor", "worst", "hate", "terrible", "awful", "slow",
    "bug", "crash", "fail", "broken", "unusable", "frustrating",
    "confusing"]).toFinset

/-- Negative-word lexicon of the `rating_text_mismatch` rule. -/
def mismatch_negative : Finset String :=
  (["bug", "crash", "fail", "broken", "unusable"]).toFinset

/-- Hype lexicon of the `rating_text_mismatch` rule. -/
def positive_hype : Finset String :=
  (["perfect", "flawless", "amazing", "incredible"]).toFinset

/-- Embedding of `_compute_sentiment_score`. -/
def sentimentScore (token_set : Finset String) : ℚ :=
  let posCount := (token_set ∩ positive_words).card
  let negCount := (token_set ∩ negative_words).card
  let total := token_set.card
  if 0 < total then ((posCount : ℚ) - (negCount : ℚ)) / (total : ℚ) else 0

/-- The per-review quality record written by `annotate_quality` into
`r.quality` (lines 140-144 of quality.py). -/
structure QualityRecord where
  vocab_diversity : ℚ
  semantic_novelty : ℚ
  domain_realism : ℚ
  bias_flags : List String
  is_accepted : Bool
deriving DecidableEq, Repr

/-- Modelled from the spec: the `Review` record lives in `generation.py`,
which is absent from the sources; per the data model it carries a rating
(integer), a free-text body and a mutable quality record. Only the fields
`annotate_quality` reads or writes are kept. -/
structure Review where
  rating : ℤ
  body : String
  quality : QualityRecord
deriving DecidableEq, Repr

/-- The token set of a review body, as built at line 101 of quality.py. -/
def tokenSetOf (r : Review) : Finset String := (tokenize r.body).toFinset

/-- Vocabulary diversity: unique over total tokens, 0 on no tokens
(line 105 of quality.py). -/
def vocabDiversity (tokens : List String) : ℚ :=
  if 0 < tokens.length then (tokens.toFinset.card : ℚ) / (tokens.length : ℚ)
  else 0

/-- Domain realism: overlap over keyword-set size, 0 for an empty keyword
set (lines 113-117 of quality.py). -/
def realismOf (kw : Finset String) (token_set : Finset String) : ℚ :=
  if kw ≠ ∅ then ((token_set ∩ kw).card : ℚ) / (kw.card : ℚ) else 0

/-- The bias-flag list exactly as built by lines 119-136 of quality.py:
five independent appends, `rating_text_mismatch` tested twice. -/
def flagsOf (kw : Finset String) (r : Review) (max_j : ℚ) : List String :=
  let tokens := tokenize r.body
  let token_set := tokens.toFinset
  (if tokens.length < 30 then ["too_short"] else [])
  ++ (if (8 : ℚ) / 10 < max_j then ["high_overlap"] else [])
  ++ (if realismOf kw token_set < 1 / 20 then ["low_domain_realism"] else [])
  ++ (if 4 ≤ r.rating ∧ (token_set ∩ mismatch_negative) ≠ ∅ then
        ["rating_text_mismatch"] else [])
  ++ (if r.rating ≤ 2 ∧ (token_set ∩ positive_hype) ≠ ∅ then
        ["rating_text_mismatch"] else [])

/-- The quality record computed for one review against a given list of
previously seen token sets (the loop body, lines 100-144 of quality.py). -/
def annotateOne (kw : Finset String) (priorSets : List (Finset String))
    (r : Review) : QualityRecord :=
  let tokens := tokenize r.body
  let token_set := tokens.toFinset
  let max_j := maxJaccard token_set priorSets
  let flags := flagsOf kw r max_j
  { vocab_diversity := vocabDiversity tokens
    semantic_novelty := 1 - max_j
    domain_realism := realismOf kw token_set
    bias_flags := flags
    is_accepted := flags.length == 0 }

/-- The accumulator threaded through the review loop of `annotate_quality`:
the local lists and counters of lines 91-97, plus the reviews as mutated so
far (each with its quality record overwritten). -/
structure AnnState where
  seen_token_sets : List (Finset String)
  vocab_divs : List ℚ
  novelties : List ℚ
  realism_scores : List ℚ
  sentiment_scores : List ℚ
  rejections : ℕ
  rating_hist : List (ℤ × ℕ)
  processed : List Review

/-- `rating_hist[r.rating] = rating_hist.get(r.rating, 0) + 1` on an
insertion-ordered dict, modelled as an association list. -/
def histAdd (h : List (ℤ × ℕ)) (k : ℤ) : List (ℤ × ℕ) :=
  if h.any (fun p => p.1 == k) then
    h.map (fun p => if p.1 == k then (p.1, p.2 + 1) else p)
  else h ++ [(k, 1)]

/-- One iteration of the review loop (lines 99-157 of quality.py). -/
def annotateStep (kw : Finset String) (s : AnnState) (r : Review) : AnnState :=
  let q := annotateOne kw s.seen_token_sets r
  let token_set := tokenSetOf r
  { seen_token_sets := s.seen_token_sets ++ [token_set]
    vocab_divs := s.vocab_divs ++ [q.vocab_diversity]
    novelties := s.novelties ++ [q.semantic_novelty]
    realism_scores := s.realism_scores ++ [q.domain_realism]
    sentiment_scores := s.sentiment_scores ++ [sentimentScore token_set]
    rejections := s.rejections + (if q.is_accepted then 0 else 1)
    rating_hist := histAdd s.rating_hist r.rating
    processed := s.processed ++ [{ r with quality := q }] }

/-- The full review loop. -/
def annotateLoop (kw : Finset String) : List Review → AnnState → AnnState
  | [], s => s
  | r :: rs, s => annotateLoop kw rs (annotateStep kw s r)

/-- The empty accumulator the loop starts from. -/
def initState : AnnState := ⟨[], [], [], [], [], 0, [], []⟩

/-- Lines 65-89 of quality.py: a missing keyword argument selects the
default set, a supplied iterable is lowercased into a set. -/
def resolveKeywords : Option (List String) → Finset String
  | none => defaultDomainKeywords
  | some ks => (ks.map (fun k => String.mk (k.data.map Char.toLower))).toFinset

/-- The summary record returned by `annotate_quality`. The source names the
two rating-share fields `high_rating_ratio` and `low_rating_ratio`. -/
structure QualitySummary where
  avg_vocab_diversity : ℚ
  avg_semantic_novelty : ℚ
  avg_domain_realism : ℚ
  rejection_rate : ℚ
  rating_histogram : List (ℤ × ℕ)
  high_rating_frac : ℚ
  low_rating_frac : ℚ
  rating_skew_score : ℚ
  avg_sentiment_score : ℚ
deriving DecidableEq, Repr

/-- `d.get(k, 0.0)` on a rating-to-rational mapping. -/
def distGet (d : List (ℤ × ℚ)) (k : ℤ) : ℚ :=
  match d.find? (fun p => p.1 == k) with
  | some p => p.2
  | none => 0

/-- Lines 168-176 of quality.py: the skew loop over ratings 1..5, run only
when the expected distribution is truthy (a nonempty mapping). -/
def ratingSkewScore (expected : List (ℤ × ℚ)) (hist : List (ℤ × ℕ))
    (n : ℕ) : ℚ :=
  if expected = [] then 0
  else
    let actual := hist.map (fun p => (p.1, (p.2 : ℚ) / (n : ℚ)))
    (([1, 2, 3, 4, 5] : List ℤ).map (fun rating =>
      (distGet actual rating - distGet expected rating) ^ 2)).sum

/-- Embedding of `annotate_quality` (lines 60-189 of quality.py): returns
the mutated reviews in order together with the summary. A Python `None` or
empty dict for `expected_rating_dist` are both the empty list here (both
are falsy at line 169). -/
def annotate_quality (reviews : List Review)
    (domain_keywords : Option (List String))
    (expected_rating_dist : List (ℤ × ℚ)) : List Review × QualitySummary :=
  let kw := resolveKeywords domain_keywords
  let s := annotateLoop kw reviews initState
  let n : ℕ := if reviews.length = 0 then 1 else reviews.length
  let high_count := (reviews.filter (fun r => 4 ≤ r.rating)).length
  let low_count := (reviews.filter (fun r => r.rating ≤ 2)).length
  (s.processed,
   { avg_vocab_diversity :=
       if s.vocab_divs ≠ [] then s.vocab_divs.sum / (n : ℚ) else 0
     avg_semantic_novelty :=
       if s.novelties ≠ [] then s.novelties.sum / (n : ℚ) else 0
     avg_domain_realism :=
       if s.realism_scores ≠ [] then s.realism_scores.sum / (n : ℚ) else 0
     rejection_rate := (s.rejections : ℚ) / (n : ℚ)
     rating_histogram := s.rating_hist
     high_rating_frac := (high_count : ℚ) / (n : ℚ)
     low_rating_frac := (low_count : ℚ) / (n : ℚ)
     rating_skew_score := ratingSkewScore expected_rating_dist s.rating_hist n
     avg_sentiment_score :=
       if s.sentiment_scores ≠ [] then s.sentiment_scores.sum / (n : ℚ) else 0 })

/-- Line 59 of cli.py: the guardrail caller's rejection rate, guarded on a
zero attempt count. -/
def cliRejectionRate (accepted attempts : ℕ) : ℚ :=
  if attempts ≠ 0 then 1 - (accepted : ℚ) / (attempts : ℚ) else 0

/-- A review record as handed in by a provider: rating and body set, the
quality record still at its defaults. -/
def mkReview (rating : ℤ) (body : String) : Review :=
  ⟨rating, body, ⟨0, 0, 0, [], false⟩⟩

/-- The list of reviews as mutated by the loop, written directly by
prefix recursion on the input list. -/
def annotateAll (kw : Finset String) (priorSets : List (Finset String)) :
    List Review → List Review
  | [] => []
  | r :: rs =>
    { r with quality := annotateOne kw priorSets r }
      :: annotateAll kw (priorSets ++ [tokenSetOf r]) rs

theorem jaccard_nonneg (a b : Finset String) : 0 ≤ jaccard a b := by
  unfold jaccard
  split_ifs with h1 h2
  · exact le_refl 0
  · exact le_refl 0
  · positivity

theorem jaccard_le_one (a b : Finset String) : jaccard a b ≤ 1 := by
  unfold jaccard
  split_ifs with h1 h2
  · exact zero_le_one
  · exact zero_le_one
  · have hcard : (a ∩ b).card ≤ (a ∪ b).card :=
      Finset.card_le_card (Finset.inter_subset_union)
    have hpos : (0 : ℚ) < ((a ∪ b).card : ℚ) := by
      have : 0 < (a ∪ b).card := Nat.pos_of_ne_zero h2
      exact_mod_cast this
    rw [div_le_one hpos]
    exact_mod_cast hcard

theorem jaccard_self (a : Finset String) (ha : a ≠ ∅) : jaccard a a = 1 := by
  unfold jaccard
  have hne : ¬(a = ∅ ∧ a = ∅) := fun h => ha h.1
  have hcard : (a ∪ a).card ≠ 0 := by
    simp only [Finset.union_self]
    exact fun h => ha (Finset.card_eq_zero.mp h)
  rw [if_neg hne, if_neg hcard]
  simp only [Finset.inter_self, Finset.union_self]
  exact div_self (by exact_mod_cast fun h => ha (Finset.card_eq_zero.mp h))

theorem le_foldl_max (l : List ℚ) (a : ℚ) : a ≤ l.foldl max a := by
  induction l generalizing a with
  | nil => exact le_refl a
  | cons x xs ih => exact le_trans (le_max_left a x) (ih (max a x))

theorem foldl_max_le (l : List ℚ) (a b : ℚ) (ha : a ≤ b)
    (h : ∀ x ∈ l, x ≤ b) : l.foldl max a ≤ b := by
  induction l generalizing a with
  | nil => exact ha
  | cons x xs ih =>
    exact ih (max a x) (max_le ha (h x (List.mem_cons_self x xs)))
      (fun y hy => h y (List.mem_cons_of_mem x hy))

theorem mem_le_foldl_max (l : List ℚ) (a x : ℚ) (hx : x ∈ l) :
    x ≤ l.foldl max a := by
  induction l generalizing a with
  | nil => cases hx
  | cons y ys ih =>
    rcases List.mem_cons.mp hx with h | h
    · subst h
      exact le_trans (le_max_right a x) (le_foldl_max ys (max a x))
    · exact ih (max a y) h

theorem maxJaccard_cons (ts p : Finset String) (ps : List (Finset String)) :
    maxJaccard ts (p :: ps) = (ps.map (jaccard ts)).foldl max (jaccard ts p) := by
  simp [maxJaccard, List.foldl_map]

theorem maxJaccard_nonneg (ts : Finset String) (l : List (Finset String)) :
    0 ≤ maxJaccard ts l := by
  cases l with
  | nil => exact le_refl 0
  | cons p ps =>
    rw [maxJaccard_cons]
    exact le_trans (jaccard_nonneg ts p) (le_foldl_max _ _)

theorem maxJaccard_le_one (ts : Finset String) (l : List (Finset String)) :
    maxJaccard ts l ≤ 1 := by
  cases l with
  | nil => exact zero_le_one
  | cons p ps =>
    rw [maxJaccard_cons]
    exact foldl_max_le _ _ _ (jaccard_le_one ts p)
      (fun x hx => by
        rcases List.mem_map.mp hx with ⟨q, _, rfl⟩
        exact jaccard_le_one ts q)

theorem le_maxJaccard_of_mem (ts p : Finset String) (l : List (Finset String))
    (hp : p ∈ l) : jaccard ts p ≤ maxJaccard ts l := by
  cases l with
  | nil => cases hp
  | cons q qs =>
    rw [maxJaccard_cons]
    rcases List.mem_cons.mp hp with h | h
    · subst h
      exact le_foldl_max _ _
    · exact mem_le_foldl_max _ _ _ (List.mem_map_of_mem (jaccard ts) h)

theorem annotateAll_length (kw : Finset String) (priorSets : List (Finset String))
    (l : List Review) : (annotateAll kw priorSets l).length = l.length := by
  induction l generalizing priorSets with
  | nil => rfl
  | cons r rs ih => simp [annotateAll, ih]

theorem annotateLoop_seen (kw : Finset String) (l : List Review) (s : AnnState) :
    (annotateLoop kw l s).seen_token_sets
      = s.seen_token_sets ++ l.map tokenSetOf := by
  induction l generalizing s with
  | nil => simp [annotateLoop]
  | cons r rs ih =>
    simp only [annotateLoop, ih, annotateStep, List.map_cons]
    simp [List.append_assoc]

theorem annotateLoop_processed (kw : Finset String) (l : List Review)
    (s : AnnState) :
    (annotateLoop kw l s).processed
      = s.processed ++ annotateAll kw s.seen_token_sets l := by
  induction l generalizing s with
  | nil => simp [annotateLoop, annotateAll]
  | cons r rs ih =>
    simp only [annotateLoop, ih, annotateStep, annotateAll]
    simp [List.append_assoc]

theorem annotateAll_getElem? (kw : Finset String) (l : List Review)
    (priorSets : List (Finset String)) (j : ℕ) (hj : j < l.length) :
    (annotateAll kw priorSets l)[j]?
      = some { l.get ⟨j, hj⟩ with
               quality := annotateOne kw
                 (priorSets ++ (l.take j).map tokenSetOf) (l.get ⟨j, hj⟩) } := by
  induction l generalizing priorSets j with
  | nil => cases hj
  | cons r rs ih =>
    cases j with
    | zero => simp [annotateAll]
    | succ j =>
      have hj' : j < rs.length := Nat.lt_of_succ_lt_succ hj
      simp only [annotateAll, List.getElem?_cons_succ]
      rw [ih _ j hj']
      simp [List.append_assoc, List.take_succ_cons, List.get]

theorem annotate_quality_length (reviews : List Review)
    (kw : Option (List String)) (exp : List (ℤ × ℚ)) :
    (annotate_quality reviews kw exp).1.length = reviews.length := by
  simp [annotate_quality, annotateLoop_processed, initState, annotateAll_length]

theorem annotate_quality_getElem? (reviews : List Review)
    (kw : Option (List String)) (exp : List (ℤ × ℚ)) (j : ℕ)
    (hj : j < reviews.length) :
    (annotate_quality reviews kw exp).1[j]?
      = some { reviews.get ⟨j, hj⟩ with
               quality := annotateOne (resolveKeywords kw)
                 ((reviews.take j).map tokenSetOf) (reviews.get ⟨j, hj⟩) } := by
  show (annotateLoop (resolveKeywords kw) reviews initState).processed[j]? = _
  rw [annotateLoop_processed]
  show (annotateAll (resolveKeywords kw) [] reviews)[j]? = _
  rw [annotateAll_getElem? _ _ _ j hj]
  simp

theorem annotate_quality_get (reviews : List Review)
    (kw : Option (List String)) (exp : List (ℤ × ℚ)) (j : ℕ)
    (hj : j < reviews.length)
    (hj' : j < (annotate_quality reviews kw exp).1.length) :
    (annotate_quality reviews kw exp).1.get ⟨j, hj'⟩
      = { reviews.get ⟨j, hj⟩ with
          quality := annotateOne (resolveKeywords kw)
            ((reviews.take j).map tokenSetOf) (reviews.get ⟨j, hj⟩) } := by
  have h1 := annotate_quality_getElem? reviews kw exp j hj
  have h2 : (annotate_quality reviews kw exp).1[j]?
      = some ((annotate_quality reviews kw exp).1.get ⟨j, hj'⟩) := by
    rw [List.getElem?_eq_getElem hj', List.get_eq_getElem]
  rw [h1] at h2
  exact (Option.some_injective _ h2).symm

theorem vocabDiversity_nonneg (l : List String) : 0 ≤ vocabDiversity l := by
  unfold vocabDiversity
  split_ifs
  · positivity
  · exact le_refl 0

theorem vocabDiversity_le_one (l : List String) : vocabDiversity l ≤ 1 := by
  unfold vocabDiversity
  split_ifs with h
  · have hpos : (0 : ℚ) < (l.length : ℚ) := by exact_mod_cast h
    rw [div_le_one hpos]
    exact_mod_cast List.toFinset_card_le l
  · exact zero_le_one

theorem toFinset_card_eq_length_iff (l : List String) :
    l.toFinset.card = l.length ↔ l.Nodup := by
  rw [List.card_toFinset]
  constructor
  · intro h
    exact List.dedup_eq_self.mp (l.dedup_sublist.eq_of_length h)
  · intro h
    rw [List.dedup_eq_self.mpr h]

theorem vocabDiversity_eq_one_iff (l : List String) (hne : l ≠ []) :
    vocabDiversity l = 1 ↔ l.Nodup := by
  have hpos : 0 < l.length := List.length_pos.mpr hne
  have hq : (l.length : ℚ) ≠ 0 := by exact_mod_cast Nat.pos_iff_ne_zero.mp hpos
  unfold vocabDiversity
  rw [if_pos hpos, div_eq_one_iff_eq hq, Nat.cast_inj]
  exact toFinset_card_eq_length_iff l

/-- Claim C3 counterexample: for the empty text there are no tokens, so
every token is (vacuously) distinct, yet the vocabulary diversity is the
zero default, not 1. -/
theorem C3_counterexample :
    ¬(vocabDiversity (tokenize "") = 1 ↔ (tokenize "").Nodup) := by
  decide

/-- Claim C3 (amended): for all text, vocabulary diversity lies in [0, 1],
and it equals 1 iff the text has at least one token and all its tokens are
distinct. -/
theorem C3_vocab_diversity (t : String) :
    0 ≤ vocabDiversity (tokenize t) ∧ vocabDiversity (tokenize t) ≤ 1 ∧
      (vocabDiversity (tokenize t) = 1
        ↔ (tokenize t ≠ [] ∧ (tokenize t).Nodup)) := by
  refine ⟨vocabDiversity_nonneg _, vocabDiversity_le_one _, ?_⟩
  by_cases hne : tokenize t = []
  · rw [hne]
    simp [vocabDiversity]
  · rw [vocabDiversity_eq_one_iff _ hne]
    exact ⟨fun h => ⟨hne, h⟩, fun h => h.2⟩

/-- Claim C1 counterexample: summarizing the empty collection against the
expected distribution mapping rating 5 to probability 1 yields a rating
skew score of 1, not 0: the skew loop still runs, with every observed
frequency 0. -/
theorem C1_counterexample :
    (annotate_quality [] none [(5, 1)]).2.rating_skew_score ≠ 0 := by
  simp [annotate_quality, annotateLoop, initState, ratingSkewScore, distGet,
    List.find?]

/-- Claim C1 (amended): for the empty input collection with expected
distribution mapping 5 to 1.0, all four averages are 0, the histogram is
empty, the rejection rate is 0, and the rating skew score is 1 (the sum of
the squared expected probabilities). -/
theorem C1_empty_summary :
    (annotate_quality [] none [(5, 1)]).2.avg_vocab_diversity = 0 ∧
    (annotate_quality [] none [(5, 1)]).2.avg_semantic_novelty = 0 ∧
    (annotate_quality [] none [(5, 1)]).2.avg_domain_realism = 0 ∧
    (annotate_quality [] none [(5, 1)]).2.avg_sentiment_score = 0 ∧
    (annotate_quality [] none [(5, 1)]).2.rating_histogram = [] ∧
    (annotate_quality [] none [(5, 1)]).2.rating_skew_score = 1 := by
  refine ⟨?_, ?_, ?_, ?_, ?_, ?_⟩ <;>
    simp [annotate_quality, annotateLoop, initState, ratingSkewScore, distGet,
      List.find?]

/-- Claim C8: the guardrail caller's rejection rate is 0 on zero attempts
and otherwise 1 minus accepted over attempts; the division only happens
under the nonzero guard. -/
theorem C8_cli_rejection_rate (accepted attempts : ℕ) :
    (attempts = 0 → cliRejectionRate accepted attempts = 0) ∧
    (attempts ≠ 0 →
      cliRejectionRate accepted attempts
        = 1 - (accepted : ℚ) / (attempts : ℚ)) := by
  constructor
  · intro h
    simp [cliRejectionRate, h]
  · intro h
    simp [cliRejectionRate, h]

/-- Claim C8 witness at attempts 0 and at 3 accepted of 4 attempts. -/
theorem C8_witness :
    cliRejectionRate 3 0 = 0 ∧
    cliRejectionRate 3 4 = 1 - ((3 : ℕ) : ℚ) / ((4 : ℕ) : ℚ) :=
  ⟨(C8_cli_rejection_rate 3 0).1 rfl,
   (C8_cli_rejection_rate 3 4).2 (by decide)⟩

/-- The bias-flag list as the claim words it: one `rating_text_mismatch`
rule with a disjunctive trigger, to be compared with the source's two
separate appends. -/
def claimFlags (kw : Finset String) (r : Review) (max_j : ℚ) : List String :=
  let token_set := (tokenize r.body).toFinset
  (if (tokenize r.body).length < 30 then ["too_short"] else [])
  ++ (if (8 : ℚ) / 10 < max_j then ["high_overlap"] else [])
  ++ (if realismOf kw token_set < 1 / 20 then ["low_domain_realism"] else [])
  ++ (if (4 ≤ r.rating ∧ (token_set ∩ mismatch_negative) ≠ ∅)
        ∨ (r.rating ≤ 2 ∧ (token_set ∩ positive_hype) ≠ ∅) then
        ["rating_text_mismatch"] else [])

theorem flagsOf_eq_claimFlags (kw : Finset String) (r : Review) (mj : ℚ) :
    flagsOf kw r mj = claimFlags kw r mj := by
  simp only [flagsOf, claimFlags]
  by_cases hA : 4 ≤ r.rating ∧ ((tokenize r.body).toFinset ∩ mismatch_negative) ≠ ∅ <;>
    by_cases hB : r.rating ≤ 2 ∧ ((tokenize r.body).toFinset ∩ positive_hype) ≠ ∅
  · obtain ⟨hA1, -⟩ := hA
    obtain ⟨hB1, -⟩ := hB
    exfalso
    omega
  · simp [hA, hB]
  · simp [hA, hB]
  · simp [hA, hB]

theorem flagsOf_nodup_sublist (kw : Finset String) (r : Review) (mj : ℚ) :
    (flagsOf kw r mj).Nodup ∧
      (flagsOf kw r mj).Sublist
        ["too_short", "high_overlap", "low_domain_realism",
         "rating_text_mismatch"] := by
  rw [flagsOf_eq_claimFlags]
  simp only [claimFlags]
  split_ifs <;> decide

/-- Claim C4: a review is accepted iff no flag fired, and the recorded
flag list is exactly the four rules in their fixed order, with the
rating/text mismatch given by the disjunctive trigger. -/
theorem C4_accept_flags (reviews : List Review) (kw : Option (List String))
    (exp : List (ℤ × ℚ)) (j : ℕ) (hj : j < reviews.length)
    (hj' : j < (annotate_quality reviews kw exp).1.length) :
    (((annotate_quality reviews kw exp).1.get ⟨j, hj'⟩).quality.is_accepted = true
      ↔ ((annotate_quality reviews kw exp).1.get ⟨j, hj'⟩).quality.bias_flags = []) ∧
    ((annotate_quality reviews kw exp).1.get ⟨j, hj'⟩).quality.bias_flags
      = claimFlags (resolveKeywords kw) (reviews.get ⟨j, hj⟩)
          (maxJaccard (tokenSetOf (reviews.get ⟨j, hj⟩))
            ((reviews.take j).map tokenSetOf)) := by
  rw [annotate_quality_get reviews kw exp j hj hj']
  constructor
  · show ((flagsOf _ _ _).length == 0) = true ↔ flagsOf _ _ _ = []
    simp [List.length_eq_zero]
  · show flagsOf _ _ _ = _
    rw [flagsOf_eq_claimFlags]
    rfl

/-- Claim C4 witness: a single rating-5 review whose body is the lone
token "bug". -/
theorem C4_witness :
    ((annotate_quality [mkReview 5 "bug"] none []).1.get
        ⟨0, by rw [annotate_quality_length]; decide⟩).quality.bias_flags
      = claimFlags (resolveKeywords none) (mkReview 5 "bug")
          (maxJaccard (tokenSetOf (mkReview 5 "bug")) []) :=
  (C4_accept_flags [mkReview 5 "bug"] none [] 0 (by decide)
    (by rw [annotate_quality_length]; decide)).2

/-- Claim C10: the flag list of every annotated review is duplicate-free
and a subsequence of the four flag names in their fixed order. -/
theorem C10_flags_nodup (reviews : List Review) (kw : Option (List String))
    (exp : List (ℤ × ℚ)) (j : ℕ) (hj : j < reviews.length)
    (hj' : j < (annotate_quality reviews kw exp).1.length) :
    (((annotate_quality reviews kw exp).1.get ⟨j, hj'⟩).quality.bias_flags).Nodup ∧
    (((annotate_quality reviews kw exp).1.get ⟨j, hj'⟩).quality.bias_flags).Sublist
      ["too_short", "high_overlap", "low_domain_realism",
       "rating_text_mismatch"] := by
  rw [annotate_quality_get reviews kw exp j hj hj']
  exact flagsOf_nodup_sublist _ _ _

/-- Claim C10 witness: the flag list of a rating-1 review whose body is
the lone hype token "perfect". -/
theorem C10_witness :
    (((annotate_quality [mkReview 1 "perfect"] none []).1.get
        ⟨0, by rw [annotate_quality_length]; decide⟩).quality.bias_flags).Nodup ∧
    (((annotate_quality [mkReview 1 "perfect"] none []).1.get
        ⟨0, by rw [annotate_quality_length]; decide⟩).quality.bias_flags).Sublist
      ["too_short", "high_overlap", "low_domain_realism",
       "rating_text_mismatch"] :=
  C10_flags_nodup [mkReview 1 "perfect"] none [] 0 (by decide)
    (by rw [annotate_quality_length]; decide)

theorem toFinset_ne_empty_of_ne_nil (l : List String) (h : l ≠ []) :
    l.toFinset ≠ ∅ := by
  cases l with
  | nil => exact absurd rfl h
  | cons x xs =>
    intro hempty
    have : x ∈ (x :: xs).toFinset := by simp
    rw [hempty] at this
    exact absurd this (Finset.not_mem_empty x)

/-- Claim C2 (amended): if two reviews at positions i < j carry the same
body text and that body has at least one token, the later one is scored
with semantic novelty 0 and carries the high_overlap flag. -/
theorem C2_duplicate_body (reviews : List Review) (kw : Option (List String))
    (exp : List (ℤ × ℚ)) (i j : ℕ) (hij : i < j) (hj : j < reviews.length)
    (hj' : j < (annotate_quality reviews kw exp).1.length)
    (hbody : (reviews.get ⟨i, lt_trans hij hj⟩).body = (reviews.get ⟨j, hj⟩).body)
    (hne : tokenize (reviews.get ⟨j, hj⟩).body ≠ []) :
    ((annotate_quality reviews kw exp).1.get ⟨j, hj'⟩).quality.semantic_novelty = 0 ∧
    "high_overlap" ∈
      ((annotate_quality reviews kw exp).1.get ⟨j, hj'⟩).quality.bias_flags := by
  rw [annotate_quality_get reviews kw exp j hj hj']
  have hits : i < (reviews.take j).length := by
    rw [List.length_take]
    exact lt_min hij (lt_trans hij hj)
  have hgets : (reviews.take j).get ⟨i, hits⟩ = reviews.get ⟨i, lt_trans hij hj⟩ := by
    simp [List.get_eq_getElem, List.getElem_take]
  have hmem : tokenSetOf (reviews.get ⟨j, hj⟩)
      ∈ (reviews.take j).map tokenSetOf := by
    have h1 : tokenSetOf (reviews.get ⟨i, lt_trans hij hj⟩)
        = tokenSetOf (reviews.get ⟨j, hj⟩) :=
      congrArg (fun b => (tokenize b).toFinset) hbody
    rw [← h1, ← hgets]
    exact List.mem_map_of_mem tokenSetOf (List.get_mem _ _ hits)
  have hts : tokenSetOf (reviews.get ⟨j, hj⟩) ≠ ∅ :=
    toFinset_ne_empty_of_ne_nil _ hne
  have hmax : maxJaccard (tokenSetOf (reviews.get ⟨j, hj⟩))
      ((reviews.take j).map tokenSetOf) = 1 := by
    refine le_antisymm (maxJaccard_le_one _ _) ?_
    have h2 := le_maxJaccard_of_mem (tokenSetOf (reviews.get ⟨j, hj⟩))
      (tokenSetOf (reviews.get ⟨j, hj⟩)) _ hmem
    rwa [jaccard_self _ hts] at h2
  constructor
  · show 1 - maxJaccard ((tokenize (reviews.get ⟨j, hj⟩).body).toFinset)
        ((reviews.take j).map tokenSetOf) = 0
    rw [show (tokenize (reviews.get ⟨j, hj⟩).body).toFinset
        = tokenSetOf (reviews.get ⟨j, hj⟩) from rfl, hmax]
    norm_num
  · show "high_overlap" ∈ flagsOf (resolveKeywords kw) (reviews.get ⟨j, hj⟩)
        (maxJaccard ((tokenize (reviews.get ⟨j, hj⟩).body).toFinset)
          ((reviews.take j).map tokenSetOf))
    rw [show (tokenize (reviews.get ⟨j, hj⟩).body).toFinset
        = tokenSetOf (reviews.get ⟨j, hj⟩) from rfl, hmax]
    simp only [flagsOf, List.mem_append]
    have h8 : ((8 : ℚ) / 10 < 1) := by norm_num
    rw [if_pos h8]
    simp

/-- Claim C2 witness: two rating-5 reviews with the identical one-token
body "alpha". -/
theorem C2_witness :
    ((annotate_quality [mkReview 5 "alpha", mkReview 5 "alpha"] none []).1.get
        ⟨1, by rw [annotate_quality_length]; decide⟩).quality.semantic_novelty = 0 ∧
    "high_overlap" ∈
      ((annotate_quality [mkReview 5 "alpha", mkReview 5 "alpha"] none []).1.get
        ⟨1, by rw [annotate_quality_length]; decide⟩).quality.bias_flags :=
  C2_duplicate_body [mkReview 5 "alpha", mkReview 5 "alpha"] none [] 0 1
    (by decide) (by decide) (by rw [annotate_quality_length]; decide) rfl
    (by decide)

/-- Claim C2 counterexample: two reviews with the identical empty body.
Both token sets are empty, the Jaccard similarity of two empty sets is 0,
so the second review's novelty is 1, not 0, and no high_overlap flag
fires. -/
theorem C2_counterexample :
    ¬(((annotate_quality [mkReview 5 "", mkReview 5 ""] none []).1.get
        ⟨1, by rw [annotate_quality_length]; decide⟩).quality.semantic_novelty = 0 ∧
      "high_overlap" ∈
        ((annotate_quality [mkReview 5 "", mkReview 5 ""] none []).1.get
          ⟨1, by rw [annotate_quality_length]; decide⟩).quality.bias_flags) := by
  intro hclaim
  have h1 := hclaim.1
  rw [annotate_quality_get [mkReview 5 "", mkReview 5 ""] none [] 1 (by decide)
    (by rw [annotate_quality_length]; decide)] at h1
  have h2 : (1 : ℚ) - maxJaccard ((tokenize (mkReview 5 "").body).toFinset)
      (([mkReview 5 "", mkReview 5 ""].take 1).map tokenSetOf) = 0 := h1
  have h3 : maxJaccard ((tokenize (mkReview 5 "").body).toFinset)
      (([mkReview 5 "", mkReview 5 ""].take 1).map tokenSetOf) = 0 := by
    have htok : tokenize "" = [] := rfl
    simp [maxJaccard, tokenSetOf, mkReview, htok, jaccard]
  rw [h3] at h2
  norm_num at h2

/-- Claim C5: the j-th record's novelty is one minus the maximal Jaccard
similarity against the token sets of the j earlier reviews (1 when there
are none), and the corpus grows unconditionally: after any number k of
processed reviews it is exactly their token sets in input order. -/
theorem C5_novelty_corpus (reviews : List Review) (kw : Option (List String))
    (exp : List (ℤ × ℚ)) (j : ℕ) (hj : j < reviews.length)
    (hj' : j < (annotate_quality reviews kw exp).1.length) :
    ((annotate_quality reviews kw exp).1.get ⟨j, hj'⟩).quality.semantic_novelty
      = 1 - maxJaccard (tokenSetOf (reviews.get ⟨j, hj⟩))
          ((reviews.take j).map tokenSetOf) ∧
    (j = 0 →
      ((annotate_quality reviews kw exp).1.get ⟨j, hj'⟩).quality.semantic_novelty
        = 1) ∧
    (∀ k : ℕ,
      (annotateLoop (resolveKeywords kw) (reviews.take k) initState).seen_token_sets
        = (reviews.take k).map tokenSetOf) := by
  have hnov :
      ((annotate_quality reviews kw exp).1.get ⟨j, hj'⟩).quality.semantic_novelty
        = 1 - maxJaccard (tokenSetOf (reviews.get ⟨j, hj⟩))
            ((reviews.take j).map tokenSetOf) := by
    rw [annotate_quality_get reviews kw exp j hj hj']
    rfl
  refine ⟨hnov, ?_, ?_⟩
  · intro h0
    subst h0
    rw [hnov]
    simp [maxJaccard]
  · intro k
    rw [annotateLoop_seen]
    rfl

/-- Claim C5 witness: two one-token reviews, checked at position 1. -/
theorem C5_witness :
    ((annotate_quality [mkReview 5 "alpha", mkReview 4 "beta"] none []).1.get
        ⟨1, by rw [annotate_quality_length]; decide⟩).quality.semantic_novelty
      = 1 - maxJaccard
          (tokenSetOf ([mkReview 5 "alpha", mkReview 4 "beta"].get ⟨1, by decide⟩))
          (([mkReview 5 "alpha", mkReview 4 "beta"].take 1).map tokenSetOf) :=
  (C5_novelty_corpus [mkReview 5 "alpha", mkReview 4 "beta"] none [] 1
    (by decide) (by rw [annotate_quality_length]; decide)).1

theorem defaultDomainKeywords_card : defaultDomainKeywords.card = 20 := by
  decide

theorem defaultDomainKeywords_ne_empty : defaultDomainKeywords ≠ ∅ := by
  decide

theorem mem_flagsOf_low_iff (kw : Finset String) (r : Review) (mj : ℚ) :
    "low_domain_realism" ∈ flagsOf kw r mj
      ↔ realismOf kw ((tokenize r.body).toFinset) < 1 / 20 := by
  simp only [flagsOf]
  split_ifs <;>
    first
      | exact iff_of_true (by decide) ‹_›
      | exact iff_of_false (by decide) ‹_›

theorem realismOf_default_lt_iff (ts : Finset String) :
    realismOf defaultDomainKeywords ts < 1 / 20
      ↔ ts ∩ defaultDomainKeywords = ∅ := by
  unfold realismOf
  rw [if_pos defaultDomainKeywords_ne_empty, defaultDomainKeywords_card]
  rw [show ((20 : ℕ) : ℚ) = 20 from by norm_num]
  rw [div_lt_div_iff_of_pos_right (by norm_num : (0 : ℚ) < 20)]
  rw [Nat.cast_lt_one, Finset.card_eq_zero]

/-- Claim C9: the default keyword set has 20 entries; under it the
low_domain_realism flag fires exactly when the token set misses every
default keyword, and a single keyword hit gives realism exactly 1/20,
which escapes the strict threshold. -/
theorem C9_default_realism (reviews : List Review) (exp : List (ℤ × ℚ))
    (j : ℕ) (hj : j < reviews.length)
    (hj' : j < (annotate_quality reviews none exp).1.length) :
    defaultDomainKeywords.card = 20 ∧
    ("low_domain_realism" ∈
        ((annotate_quality reviews none exp).1.get ⟨j, hj'⟩).quality.bias_flags
      ↔ tokenSetOf (reviews.get ⟨j, hj⟩) ∩ defaultDomainKeywords = ∅) ∧
    ((tokenSetOf (reviews.get ⟨j, hj⟩) ∩ defaultDomainKeywords).card = 1 →
      ((annotate_quality reviews none exp).1.get ⟨j, hj'⟩).quality.domain_realism
        = 1 / 20 ∧
      "low_domain_realism" ∉
        ((annotate_quality reviews none exp).1.get ⟨j, hj'⟩).quality.bias_flags) := by
  rw [annotate_quality_get reviews none exp j hj hj']
  refine ⟨defaultDomainKeywords_card, ?_, ?_⟩
  · show "low_domain_realism" ∈ flagsOf defaultDomainKeywords _ _ ↔ _
    rw [mem_flagsOf_low_iff]
    exact realismOf_default_lt_iff _
  · intro hcard
    constructor
    · show realismOf defaultDomainKeywords
        (tokenSetOf (reviews.get ⟨j, hj⟩)) = 1 / 20
      unfold realismOf
      rw [if_pos defaultDomainKeywords_ne_empty, defaultDomainKeywords_card,
        hcard]
      norm_num
    · show "low_domain_realism" ∉ flagsOf defaultDomainKeywords _ _
      rw [mem_flagsOf_low_iff]
      show ¬(realismOf defaultDomainKeywords
        (tokenSetOf (reviews.get ⟨j, hj⟩)) < 1 / 20)
      rw [realismOf_default_lt_iff]
      intro hempty
      rw [hempty] at hcard
      simp at hcard

/-- Claim C9 witness: a review whose body is the single default keyword
"api". -/
theorem C9_witness :
    ((annotate_quality [mkReview 5 "api"] none []).1.get
        ⟨0, by rw [annotate_quality_length]; decide⟩).quality.domain_realism
      = 1 / 20 ∧
    "low_domain_realism" ∉
      ((annotate_quality [mkReview 5 "api"] none []).1.get
        ⟨0, by rw [annotate_quality_length]; decide⟩).quality.bias_flags :=
  (C9_default_realism [mkReview 5 "api"] [] 0 (by decide)
    (by rw [annotate_quality_length]; decide)).2.2 (by decide)

/-- The inputs the annotator reads from a review: its rating and body. -/
def projRB (r : Review) : ℤ × String := (r.rating, r.body)

theorem annotateOne_proj (kw : Finset String) (priorSets : List (Finset String))
    (r1 r2 : Review) (hr : r1.rating = r2.rating) (hb : r1.body = r2.body) :
    annotateOne kw priorSets r1 = annotateOne kw priorSets r2 := by
  unfold annotateOne flagsOf
  rw [hr, hb]

theorem annotateStep_proj (kw : Finset String) (s : AnnState) (r1 r2 : Review)
    (h : projRB r1 = projRB r2) : annotateStep kw s r1 = annotateStep kw s r2 := by
  have hr : r1.rating = r2.rating := congrArg Prod.fst h
  have hb : r1.body = r2.body := congrArg Prod.snd h
  cases r1
  cases r2
  simp only at hr hb
  subst hr
  subst hb
  rfl

theorem annotateLoop_proj (kw : Finset String) :
    ∀ (l1 l2 : List Review) (s : AnnState),
      l1.map projRB = l2.map projRB → annotateLoop kw l1 s = annotateLoop kw l2 s := by
  intro l1
  induction l1 with
  | nil =>
    intro l2 s h
    cases l2 with
    | nil => rfl
    | cons r' rs' => simp at h
  | cons r rs ih =>
    intro l2 s h
    cases l2 with
    | nil => simp at h
    | cons r' rs' =>
      simp only [List.map_cons, List.cons.injEq] at h
      obtain ⟨hr, hrs⟩ := h
      simp only [annotateLoop]
      rw [annotateStep_proj kw s r r' hr]
      exact ih rs' _ hrs

theorem annotateAll_proj (kw : Finset String) (priorSets : List (Finset String))
    (l : List Review) : (annotateAll kw priorSets l).map projRB = l.map projRB := by
  induction l generalizing priorSets with
  | nil => rfl
  | cons r rs ih =>
    simp only [annotateAll, List.map_cons, ih]
    rfl

theorem filter_length_proj (p : ℤ × String → Bool) (l1 l2 : List Review)
    (h : l1.map projRB = l2.map projRB) :
    (l1.filter (fun r => p (projRB r))).length
      = (l2.filter (fun r => p (projRB r))).length := by
  rw [← List.countP_eq_length_filter, ← List.countP_eq_length_filter]
  show List.countP (p ∘ projRB) l1 = List.countP (p ∘ projRB) l2
  rw [← List.countP_map, ← List.countP_map, h]

theorem annotate_quality_proj_congr (kw : Option (List String))
    (exp : List (ℤ × ℚ)) (l1 l2 : List Review)
    (h : l1.map projRB = l2.map projRB) :
    annotate_quality l1 kw exp = annotate_quality l2 kw exp := by
  have hloop : annotateLoop (resolveKeywords kw) l1 initState
      = annotateLoop (resolveKeywords kw) l2 initState :=
    annotateLoop_proj _ l1 l2 initState h
  have hlen : l1.length = l2.length := by
    have := congrArg List.length h
    simpa using this
  have hhigh : (l1.filter (fun r => 4 ≤ r.rating)).length
      = (l2.filter (fun r => 4 ≤ r.rating)).length :=
    filter_length_proj (fun p => 4 ≤ p.1) l1 l2 h
  have hlow : (l1.filter (fun r => r.rating ≤ 2)).length
      = (l2.filter (fun r => r.rating ≤ 2)).length :=
    filter_length_proj (fun p => p.1 ≤ 2) l1 l2 h
  unfold annotate_quality
  dsimp only
  rw [hloop, hlen, hhigh, hlow]

/-- Claim C6: annotation is deterministic and idempotent: re-running
annotate_quality on its own output (same keywords, same expected
distribution, fresh corpus) reproduces the same mutated reviews and the
same summary. -/
theorem C6_idempotent (reviews : List Review) (kw : Option (List String))
    (exp : List (ℤ × ℚ)) :
    annotate_quality (annotate_quality reviews kw exp).1 kw exp
      = annotate_quality reviews kw exp := by
  apply annotate_quality_proj_congr
  show ((annotateLoop (resolveKeywords kw) reviews initState).processed).map projRB
    = reviews.map projRB
  rw [annotateLoop_processed]
  show (annotateAll (resolveKeywords kw) [] reviews).map projRB = reviews.map projRB
  exact annotateAll_proj _ _ _

/-- Total number of observations recorded in a histogram. -/
def histCount (h : List (ℤ × ℕ)) : ℕ := (h.map (fun p => p.2)).sum

theorem replace_count (h : List (ℤ × ℕ)) (k : ℤ)
    (hnd : (h.map (fun p => p.1)).Nodup)
    (hmem : h.any (fun p => p.1 == k) = true) :
    histCount (h.map (fun p => if p.1 == k then (p.1, p.2 + 1) else p))
      = histCount h + 1 := by
  induction h with
  | nil => simp at hmem
  | cons p t ih =>
    simp only [List.map_cons, List.nodup_cons] at hnd
    by_cases hpk : (p.1 == k) = true
    · have hk : p.1 = k := by simpa using hpk
      have ht : t.map (fun q => if q.1 == k then (q.1, q.2 + 1) else q) = t := by
        have hfix : ∀ q ∈ t, (if q.1 == k then (q.1, q.2 + 1) else q) = q := by
          intro q hq
          rw [if_neg]
          intro hqk
          have hq1 : q.1 = k := by simpa using hqk
          exact hnd.1 (hk ▸ hq1 ▸ List.mem_map_of_mem (fun p => p.1) hq)
        rw [List.map_congr_left hfix]
        exact List.map_id t
      simp only [List.map_cons, if_pos hpk, histCount, List.map_cons,
        List.sum_cons, ht]
      omega
    · have hmem' : t.any (fun p => p.1 == k) = true := by
        simp only [List.any_cons, Bool.or_eq_true] at hmem
        rcases hmem with hc | hc
        · exact absurd hc hpk
        · exact hc
      simp only [List.map_cons, if_neg hpk, histCount, List.map_cons,
        List.sum_cons]
      have := ih hnd.2 hmem'
      simp only [histCount] at this
      omega

theorem histAdd_count (h : List (ℤ × ℕ)) (k : ℤ)
    (hnd : (h.map (fun p => p.1)).Nodup) :
    histCount (histAdd h k) = histCount h + 1 := by
  unfold histAdd
  split_ifs with hmem
  · exact replace_count h k hnd hmem
  · simp [histCount]

theorem histAdd_keys_nodup (h : List (ℤ × ℕ)) (k : ℤ)
    (hnd : (h.map (fun p => p.1)).Nodup) :
    ((histAdd h k).map (fun p => p.1)).Nodup := by
  unfold histAdd
  split_ifs with hmem
  · have hkeys : (h.map (fun p => if p.1 == k then (p.1, p.2 + 1) else p)).map
        (fun p => p.1) = h.map (fun p => p.1) := by
      rw [List.map_map]
      apply List.map_congr_left
      intro p _
      show (if (p.1 == k) = true then (p.1, p.2 + 1) else p).1 = p.1
      split <;> rfl
    rw [hkeys]
    exact hnd
  · rw [List.map_append]
    have hk : k ∉ h.map (fun p => p.1) := by
      intro hmem'
      rcases List.mem_map.mp hmem' with ⟨p, hp, hpk⟩
      exact hmem (List.any_eq_true.mpr ⟨p, hp, by simpa using hpk⟩)
    simp only [List.nodup_append, List.map_cons, List.map_nil]
    refine ⟨hnd, List.nodup_singleton k, ?_⟩
    intro a ha hb
    rw [List.mem_singleton] at hb
    exact hk (hb ▸ ha)

theorem annotateLoop_hist (kw : Finset String) (l : List Review) (s : AnnState)
    (hnd : (s.rating_hist.map (fun p => p.1)).Nodup) :
    histCount (annotateLoop kw l s).rating_hist
        = histCount s.rating_hist + l.length ∧
      ((annotateLoop kw l s).rating_hist.map (fun p => p.1)).Nodup := by
  induction l generalizing s with
  | nil => exact ⟨by simp [annotateLoop], hnd⟩
  | cons r rs ih =>
    have hstep : (annotateStep kw s r).rating_hist
        = histAdd s.rating_hist r.rating := rfl
    obtain ⟨h1, h2⟩ := ih (annotateStep kw s r)
      (by rw [hstep]; exact histAdd_keys_nodup _ _ hnd)
    refine ⟨?_, h2⟩
    show histCount (annotateLoop kw rs (annotateStep kw s r)).rating_hist = _
    rw [h1, hstep, histAdd_count _ _ hnd]
    simp only [List.length_cons]
    omega

theorem annotateLoop_rejections_le (kw : Finset String) (l : List Review)
    (s : AnnState) :
    (annotateLoop kw l s).rejections ≤ s.rejections + l.length := by
  induction l generalizing s with
  | nil => simp [annotateLoop]
  | cons r rs ih =>
    show (annotateLoop kw rs (annotateStep kw s r)).rejections ≤ _
    have h1 := ih (annotateStep kw s r)
    have h2 : (annotateStep kw s r).rejections ≤ s.rejections + 1 := by
      show s.rejections + (if (annotateOne kw s.seen_token_sets r).is_accepted
        then 0 else 1) ≤ s.rejections + 1
      split_ifs <;> omega
    simp only [List.length_cons]
    omega

theorem nat_div_bounds (x n : ℕ) (hx : x ≤ n) (hn : 1 ≤ n) :
    0 ≤ (x : ℚ) / (n : ℚ) ∧ (x : ℚ) / (n : ℚ) ≤ 1 := by
  have hnpos : (0 : ℚ) < (n : ℚ) := by exact_mod_cast hn
  constructor
  · positivity
  · rw [div_le_one hnpos]
    exact_mod_cast hx

/-- Claim C7: in every returned summary the rejection rate and the two
rating-share ratios lie in [0, 1], and the histogram counts sum to the
number of input reviews. -/
theorem C7_summary_bounds (reviews : List Review) (kw : Option (List String))
    (exp : List (ℤ × ℚ)) :
    0 ≤ (annotate_quality reviews kw exp).2.rejection_rate ∧
    (annotate_quality reviews kw exp).2.rejection_rate ≤ 1 ∧
    0 ≤ (annotate_quality reviews kw exp).2.high_rating_frac ∧
    (annotate_quality reviews kw exp).2.high_rating_frac ≤ 1 ∧
    0 ≤ (annotate_quality reviews kw exp).2.low_rating_frac ∧
    (annotate_quality reviews kw exp).2.low_rating_frac ≤ 1 ∧
    histCount (annotate_quality reviews kw exp).2.rating_histogram
      = reviews.length := by
  have hn1 : 1 ≤ (if reviews.length = 0 then 1 else reviews.length) := by
    split_ifs with h
    · exact le_refl 1
    · omega
  have hLn : reviews.length ≤ (if reviews.length = 0 then 1 else reviews.length) := by
    split_ifs with h <;> omega
  have hrej : (annotateLoop (resolveKeywords kw) reviews initState).rejections
      ≤ reviews.length := by
    have := annotateLoop_rejections_le (resolveKeywords kw) reviews initState
    simpa [initState] using this
  have hhist := annotateLoop_hist (resolveKeywords kw) reviews initState
    (by simp [initState])
  have hhigh : (reviews.filter (fun r => 4 ≤ r.rating)).length ≤ reviews.length :=
    List.length_filter_le _ _
  have hlow : (reviews.filter (fun r => r.rating ≤ 2)).length ≤ reviews.length :=
    List.length_filter_le _ _
  refine ⟨?_, ?_, ?_, ?_, ?_, ?_, ?_⟩
  · exact (nat_div_bounds _ _ (le_trans hrej hLn) hn1).1
  · exact (nat_div_bounds _ _ (le_trans hrej hLn) hn1).2
  · exact (nat_div_bounds _ _ (le_trans hhigh hLn) hn1).1
  · exact (nat_div_bounds _ _ (le_trans hhigh hLn) hn1).2
  · exact (nat_div_bounds _ _ (le_trans hlow hLn) hn1).1
  · exact (nat_div_bounds _ _ (le_trans hlow hLn) hn1).2
  · show histCount (annotateLoop (resolveKeywords kw) reviews initState).rating_hist
      = reviews.length
    rw [hhist.1]
    simp [initState, histCount]

end SyntheticReviews
